import Mathlib

/-!
Shallow embedding of the rust_args command-line argument parsing library
(src/src/lib.rs) and proofs about its registration and token-matching
behaviour.

Rust strings become Lean `String` (with `String.utf8ByteSize` standing for
Rust's byte-length `str::len`), `Option::take` becomes an explicit
pair-returning operation, the type-erased trait objects (`PosArgBase`,
`KVArgBase`, `FlagArgBase`) become records carrying an explicit
string-to-value conversion function, the `BTreeMap` key tables become
association lists with `mapLookup` / `mapInsert`, and every `assert!`,
`panic!` or `Option::unwrap` failure (which aborts the Rust process) becomes
an `Except` error carrying a dedicated error constructor.  Mutation through
the caller-held `RefCell` handles is modelled by a `World` holding the
argument records, with the `Parser` registry storing indices into it, the
way the Rust registry stores references.
-/

namespace RustArgs

/-- Concretely typed values at the call sites of the library (the examples
of the specification use `i32` and `String`); the registry boundary is
type-erased, so an argument record stores an `Option Val` and its own
conversion function, mirroring the `T: FromStr` trait objects. -/
inductive Val where
  | vint (n : Int)
  | vstr (s : String)
deriving DecidableEq

/-- Digit accumulation of `i32::from_str`: consumes the remaining
characters, failing on any non-digit. -/
def parseDigits : List Char → Nat → Option Nat
  | [], acc => some acc
  | c :: rest, acc =>
    if '0' ≤ c ∧ c ≤ '9' then
      parseDigits rest (acc * 10 + (c.toNat - '0'.toNat))
    else
      none

/-- Rust `i32::from_str`: optional sign, at least one ASCII digit, value
within the `i32` range; anything else is `Err` (here `none`). -/
def i32FromStr (s : String) : Option Int :=
  match s.data with
  | [] => none
  | '+' :: rest =>
    match rest with
    | [] => none
    | _ =>
      (parseDigits rest 0).bind fun n =>
        if n ≤ 2147483647 then some (Int.ofNat n) else none
  | '-' :: rest =>
    match rest with
    | [] => none
    | _ =>
      (parseDigits rest 0).bind fun n =>
        if n ≤ 2147483648 then some (-(Int.ofNat n)) else none
  | l =>
    (parseDigits l 0).bind fun n =>
      if n ≤ 2147483647 then some (Int.ofNat n) else none

/-- Conversion function of an `i32`-typed argument (`T = i32`). -/
def i32Conv (s : String) : Option Val := (i32FromStr s).map Val.vint

/-- Conversion function of a `String`-typed argument: `String::from_str`
is infallible. -/
def strConv (s : String) : Option Val := some (Val.vstr s)

/-- `PosArg<T>`: positional argument record (name, description, held
value); `fromStr` is the `T::from_str(..).ok()` conversion of its concrete
type. -/
structure PosArg where
  name : String
  desc : String
  val : Option Val
  fromStr : String → Option Val

/-- Default record used for total list indexing (Rust indexing through a
valid reference can never see it in the runs we prove about). -/
def PosArg.dflt : PosArg := ⟨"", "", none, fun _ => none⟩

/-- `PosArg::parse`: `self.val = T::from_str(s).ok()` — the value is
replaced, and reset to absent on conversion failure. -/
def PosArg.parseTok (a : PosArg) (s : String) : PosArg :=
  { a with val := a.fromStr s }

/-- `PosArgBase::found`: `self.val.is_some()`. -/
def PosArg.found (a : PosArg) : Bool := a.val.isSome

/-- `PosArg::val`: `self.val.take()` — returns the held value and the
record with the value cleared. -/
def PosArg.take (a : PosArg) : Option Val × PosArg :=
  (a.val, { a with val := none })

/-- `KVArg<T>`: key-value argument record. -/
structure KVArg where
  name : String
  desc : String
  short_key : Option Char
  val : Option Val
  fromStr : String → Option Val

/-- Default record used for total list indexing. -/
def KVArg.dflt : KVArg := ⟨"", "", none, none, fun _ => none⟩

/-- `KVArg::parse`: `self.val = T::from_str(s).ok()`. -/
def KVArg.parseTok (a : KVArg) (s : String) : KVArg :=
  { a with val := a.fromStr s }

/-- `KVArgBase::found`: `self.val.is_some()`. -/
def KVArg.found (a : KVArg) : Bool := a.val.isSome

/-- `KVArg::val`: `self.val.take()`. -/
def KVArg.take (a : KVArg) : Option Val × KVArg :=
  (a.val, { a with val := none })

/-- `FlagArg`: presence-only argument record; `val` is the boolean
presence flag, initially `false`. -/
structure FlagArg where
  name : String
  desc : String
  short_key : Option Char
  val : Bool

/-- Default record used for total list indexing. -/
def FlagArg.dflt : FlagArg := ⟨"", "", none, false⟩

/-- `FlagArgBase::found`: returns the presence flag. -/
def FlagArg.found (a : FlagArg) : Bool := a.val

/-- `FlagArg::parse`: `self.val = true`. -/
def FlagArg.parseTok (a : FlagArg) : FlagArg := { a with val := true }

/-- The argument records the caller created; the registry refers to them
by index, the way the Rust registry holds `&mut` / `&RefCell` references
into caller-owned records. -/
structure World where
  posArgs : List PosArg
  kvArgs : List KVArg
  flagArgs : List FlagArg

/-- `BTreeMap::get` on the association-list model of the key tables. -/
def mapLookup : List (String × Nat) → String → Option Nat
  | [], _ => none
  | (k, v) :: rest, key => if k = key then some v else mapLookup rest key

/-- `BTreeMap::contains_key`. -/
def mapContains (l : List (String × Nat)) (k : String) : Bool :=
  (mapLookup l k).isSome

/-- `BTreeMap::insert`: replaces the binding of an existing key, otherwise
appends a new one. -/
def mapInsert : List (String × Nat) → String → Nat → List (String × Nat)
  | [], key, v => [(key, v)]
  | (k, w) :: rest, key, v =>
    if k = key then (key, v) :: rest else (k, w) :: mapInsert rest key v

/-- `Parser`: the argument registry.  `pos_args` is the ordered list of
positional handles (indices into `World.posArgs`), `pos_arg_names` the
companion name set, `kv_keys` and `flag_keys` the two keyed tables mapping
key strings to handles (indices into `World.kvArgs` / `World.flagArgs`). -/
structure Parser where
  pos_args : List Nat
  pos_arg_names : List String
  kv_keys : List (String × Nat)
  flag_keys : List (String × Nat)
deriving DecidableEq

/-- `Parser::new`. -/
def Parser.new : Parser := ⟨[], [], [], []⟩

/-- One error constructor per distinct fatal condition (`assert!`,
`panic!` or `Option::unwrap` on `None`) that aborts the Rust process. -/
inductive RegErr where
  | dupPosName
  | kvNameCollision
  | kvNameTooShort
  | kvAliasCollision
  | flagNameCollision
  | flagNameTooShort
  | flagAliasCollision
deriving DecidableEq

/-- `Parser::add_pos_arg`: asserts the name is not already registered,
then records the name and appends the handle.  The error carries the
registry state at the moment of the failed assertion. -/
def add_pos_arg (w : World) (p : Parser) (i : Nat) : Except (RegErr × Parser) Parser :=
  let a := w.posArgs.getD i PosArg.dflt
  if p.pos_arg_names.contains a.name then
    .error (.dupPosName, p)
  else
    .ok { p with pos_arg_names := a.name :: p.pos_arg_names,
                 pos_args := p.pos_args ++ [i] }

/-- `Parser::add_kv_arg`: asserts the long name collides with no key of
either table and has byte length greater than one, inserts the long name,
and then, if an alias is present, asserts the alias string collides with no
key of either table (the long name having already been inserted) before
inserting it.  Each error carries the registry state at the failed
assertion. -/
def add_kv_arg (w : World) (p : Parser) (i : Nat) : Except (RegErr × Parser) Parser :=
  let a := w.kvArgs.getD i KVArg.dflt
  if mapContains p.kv_keys a.name || mapContains p.flag_keys a.name then
    .error (.kvNameCollision, p)
  else if a.name.utf8ByteSize ≤ 1 then
    .error (.kvNameTooShort, p)
  else
    let p1 : Parser := { p with kv_keys := mapInsert p.kv_keys a.name i }
    match a.short_key with
    | none => .ok p1
    | some c =>
      if mapContains p1.kv_keys c.toString || mapContains p1.flag_keys c.toString then
        .error (.kvAliasCollision, p1)
      else
        .ok { p1 with kv_keys := mapInsert p1.kv_keys c.toString i }

/-- `Parser::add_flag_arg`: same shape as `add_kv_arg`, on the flag
table. -/
def add_flag_arg (w : World) (p : Parser) (i : Nat) : Except (RegErr × Parser) Parser :=
  let a := w.flagArgs.getD i FlagArg.dflt
  if mapContains p.flag_keys a.name || mapContains p.kv_keys a.name then
    .error (.flagNameCollision, p)
  else if a.name.utf8ByteSize ≤ 1 then
    .error (.flagNameTooShort, p)
  else
    let p1 : Parser := { p with flag_keys := mapInsert p.flag_keys a.name i }
    match a.short_key with
    | none => .ok p1
    | some c =>
      if mapContains p1.flag_keys c.toString || mapContains p1.kv_keys c.toString then
        .error (.flagAliasCollision, p1)
      else
        .ok { p1 with flag_keys := mapInsert p1.flag_keys c.toString i }

/-- A registration call, naming the handle it registers. -/
inductive RegOp where
  | pos (i : Nat)
  | kv (i : Nat)
  | flag (i : Nat)

/-- Dispatch one registration call. -/
def applyReg (w : World) (p : Parser) : RegOp → Except (RegErr × Parser) Parser
  | .pos i => add_pos_arg w p i
  | .kv i => add_kv_arg w p i
  | .flag i => add_flag_arg w p i

/-- A sequence of registration calls, stopping at the first fatal
failure. -/
def runRegs (w : World) (p : Parser) : List RegOp → Except (RegErr × Parser) Parser
  | [] => .ok p
  | op :: rest =>
    match applyReg w p op with
    | .ok p' => runRegs w p' rest
    | .error e => .error e

/-- The fatal conditions of `Parser::parse_vec`: the two eager
`chars.next().unwrap()` calls on a token shorter than two characters, the
`it.next().unwrap()` on a missing value token, the two duplicate-supply
assertions, the unknown-key `panic!`, and the too-many-positionals
`panic!`. -/
inductive Err where
  | emptyToken
  | oneCharToken
  | missingValue
  | duplicateKV
  | duplicateFlag
  | noSuchKey (key : String)
  | tooManyPositional
deriving DecidableEq

/-- The `while let Some(arg) = it.next()` loop of `Parser::parse_vec`,
after the initial skip.  For each token the first two characters are
unwrapped eagerly (failing on shorter tokens); a token starting with the
marker is stripped of one or two markers to a key — the byte slices
`&arg[1..]` and `&arg[2..]` are the character drops here because the
stripped characters are ASCII — which is looked up in the key-value table
and then the flag table; a key-value hit asserts not-found and consumes the
next raw token as the value; a flag hit asserts not-found and sets
presence; a miss is the unknown-key failure; a markerless token is bound to
the next positional slot, failing when all slots are consumed. -/
def matchLoop (p : Parser) : World → Nat → List String → Except Err World
  | w, _, [] => .ok w
  | w, consumed, arg :: rest =>
    match arg.data with
    | [] => .error .emptyToken
    | [_] => .error .oneCharToken
    | c1 :: c2 :: cs =>
      if c1 = '-' then
        let key : String := if c2 = '-' then ⟨cs⟩ else ⟨c2 :: cs⟩
        match mapLookup p.kv_keys key with
        | some i =>
          let a := w.kvArgs.getD i KVArg.dflt
          if a.found then .error .duplicateKV
          else
            match rest with
            | [] => .error .missingValue
            | v :: rest' =>
              matchLoop p { w with kvArgs := w.kvArgs.set i (a.parseTok v) } consumed rest'
        | none =>
          match mapLookup p.flag_keys key with
          | some i =>
            let a := w.flagArgs.getD i FlagArg.dflt
            if a.found then .error .duplicateFlag
            else matchLoop p { w with flagArgs := w.flagArgs.set i a.parseTok } consumed rest
          | none => .error (.noSuchKey key)
      else
        if p.pos_args.length ≤ consumed then .error .tooManyPositional
        else
          let j := p.pos_args.getD consumed 0
          let a := w.posArgs.getD j PosArg.dflt
          matchLoop p { w with posArgs := w.posArgs.set j (a.parseTok arg) } (consumed + 1) rest

/-- The token-matching algorithm on a token sequence whose program-path
token is already stripped: the loop with the positional cursor at zero. -/
def matchTokens (p : Parser) (w : World) (toks : List String) : Except Err World :=
  matchLoop p w 0 toks

/-- `Parser::parse_vec`: `it.next()` discards the first element of the
supplied vector unconditionally (comment in the source: skip first arg,
the program path), then runs the matching loop on the rest. -/
def parse_vec (p : Parser) (w : World) (argv : List String) : Except Err World :=
  matchTokens p w (argv.drop 1)

/-- Whether a run completed without a fatal condition. -/
def exIsOk {ε α : Type} : Except ε α → Bool
  | .ok _ => true
  | .error _ => false

/-- The final state of a completed run (defaulting on a fatal one). -/
def exGetD {ε α : Type} (e : Except ε α) (d : α) : α :=
  match e with
  | .ok a => a
  | .error _ => d

/-! Concrete argument records used in the runs below, built the way the
test of the source builds them (`KVArg::<i32>::new`, and the string /
flag analogues the specification's examples use). -/

/-- An `i32`-typed key-value argument as created by `KVArg::<i32>::new`. -/
def intKV (name : String) (sk : Option Char) : KVArg := ⟨name, "", sk, none, i32Conv⟩

/-- A `String`-typed positional argument as created by
`PosArg::<String>::new`. -/
def strPos (name : String) : PosArg := ⟨name, "", none, strConv⟩

/-- A flag argument as created by `FlagArg::new`. -/
def boolFlag (name : String) (sk : Option Char) : FlagArg := ⟨name, "", sk, false⟩

/-- Positional string argument named path, key-value integer argument
named count aliased c, flag named verbose aliased v. -/
def w1 : World := ⟨[strPos "path"], [intKV "count" (some 'c')], [boolFlag "verbose" (some 'v')]⟩

/-- The registry state after registering all three arguments of `w1`. -/
def p1 : Parser := ⟨[0], ["path"], [("count", 0), ("c", 0)], [("verbose", 0), ("v", 0)]⟩

/-- One positional string argument named path. -/
def w2 : World := ⟨[strPos "path"], [], []⟩

/-- The registry state after registering the positional argument of
`w2`. -/
def p2 : Parser := ⟨[0], ["path"], [], []⟩

/-- One key-value integer argument named first aliased f. -/
def w3 : World := ⟨[], [intKV "first" (some 'f')], []⟩

/-- The registry state after registering the key-value argument of
`w3`. -/
def p3 : Parser := ⟨[], [], [("first", 0), ("f", 0)], []⟩

/-- Two key-value integer arguments, count and cool, both aliased c. -/
def w5 : World := ⟨[], [intKV "count" (some 'c'), intKV "cool" (some 'c')], []⟩

/-- The registry state after registering the first argument of `w5`. -/
def p5 : Parser := ⟨[], [], [("count", 0), ("c", 0)], []⟩

/-- The registry state at the moment registering the second argument of
`w5` fails on the alias collision: the long name cool is already in the
key-value table. -/
def p5bad : Parser := ⟨[], [], [("count", 0), ("c", 0), ("cool", 1)], []⟩

/-- The key-value argument first aliased f, currently holding 42. -/
def kvHolding42 : KVArg := { intKV "first" (some 'f') with val := some (.vint 42) }

/-- The positional argument path, currently holding the string x. -/
def posHoldingX : PosArg := { strPos "path" with val := some (.vstr "x") }

/-- The records of `w1` after a first occurrence of -c 5 stored the value
5 in the count handle. -/
def w1dup : World :=
  ⟨[strPos "path"], [{ intKV "count" (some 'c') with val := some (.vint 5) }],
    [boolFlag "verbose" (some 'v')]⟩

/-- The key strings of a keyed table. -/
def keysOf (tbl : List (String × Nat)) : List String := tbl.map Prod.fst

/-- A key-value table entry is well formed when the handle it references
has a long name of byte length greater than one whose entry is in the
table, has its alias entry in the table whenever it carries an alias, and
the entry's own key is that long name or that alias string. -/
def kvEntryOk (w : World) (tbl : List (String × Nat)) (e : String × Nat) : Prop :=
  1 < (w.kvArgs.getD e.2 KVArg.dflt).name.utf8ByteSize ∧
  ((w.kvArgs.getD e.2 KVArg.dflt).name, e.2) ∈ tbl ∧
  (∀ c, (w.kvArgs.getD e.2 KVArg.dflt).short_key = some c → (c.toString, e.2) ∈ tbl) ∧
  (e.1 = (w.kvArgs.getD e.2 KVArg.dflt).name ∨
    ∃ c, (w.kvArgs.getD e.2 KVArg.dflt).short_key = some c ∧ e.1 = c.toString)

/-- The flag-table analogue of `kvEntryOk`. -/
def flagEntryOk (w : World) (tbl : List (String × Nat)) (e : String × Nat) : Prop :=
  1 < (w.flagArgs.getD e.2 FlagArg.dflt).name.utf8ByteSize ∧
  ((w.flagArgs.getD e.2 FlagArg.dflt).name, e.2) ∈ tbl ∧
  (∀ c, (w.flagArgs.getD e.2 FlagArg.dflt).short_key = some c → (c.toString, e.2) ∈ tbl) ∧
  (e.1 = (w.flagArgs.getD e.2 FlagArg.dflt).name ∨
    ∃ c, (w.flagArgs.getD e.2 FlagArg.dflt).short_key = some c ∧ e.1 = c.toString)

/-- The keyed-name invariants of the registry: the keys of the two tables
are pairwise distinct across both kinds (one shared namespace, each key
mapping to exactly one handle), and every entry of either table is well
formed — in particular every registered long name has byte length greater
than one and is itself a key, and every registered alias string is itself
a key. -/
def Inv (w : World) (p : Parser) : Prop :=
  (keysOf p.kv_keys ++ keysOf p.flag_keys).Nodup ∧
  (∀ e ∈ p.kv_keys, kvEntryOk w p.kv_keys e) ∧
  (∀ e ∈ p.flag_keys, flagEntryOk w p.flag_keys e)

/-- Claim C1, counterexample: registering path, count aliased c and
verbose aliased v, then matching the explicitly supplied token list
in.txt, -c, 5, -v through `parse_vec`, completes without a fatal error
but `path.take_value()` returns absent, not in.txt: `parse_vec`
unconditionally discards the first supplied token (in.txt) as the program
path, so the positional slot is never bound. -/
theorem c1_counterexample :
    runRegs w1 Parser.new [.pos 0, .kv 0, .flag 0] = .ok p1 ∧
    exIsOk (parse_vec p1 w1 ["in.txt", "-c", "5", "-v"]) = true ∧
    ((exGetD (parse_vec p1 w1 ["in.txt", "-c", "5", "-v"]) w1).posArgs.getD 0 PosArg.dflt).take.1
      = none := by
  exact ⟨rfl, rfl, rfl⟩

/-- Claim C1, amended: with a dummy leading element prepended to the
token list (as the source's own test does), matching completes without a
fatal error and afterwards `path.take_value()` returns in.txt,
`count.take_value()` returns 5, and `verbose.found()` is true. -/
theorem c1_amended :
    runRegs w1 Parser.new [.pos 0, .kv 0, .flag 0] = .ok p1 ∧
    exIsOk (parse_vec p1 w1 ["", "in.txt", "-c", "5", "-v"]) = true ∧
    ((exGetD (parse_vec p1 w1 ["", "in.txt", "-c", "5", "-v"]) w1).posArgs.getD 0 PosArg.dflt).take.1
      = some (.vstr "in.txt") ∧
    ((exGetD (parse_vec p1 w1 ["", "in.txt", "-c", "5", "-v"]) w1).kvArgs.getD 0 KVArg.dflt).take.1
      = some (.vint 5) ∧
    ((exGetD (parse_vec p1 w1 ["", "in.txt", "-c", "5", "-v"]) w1).flagArgs.getD 0 FlagArg.dflt).found
      = true := by
  exact ⟨rfl, rfl, rfl, rfl, rfl⟩

/-- Claim C2: evaluating the code at the failing inputs.  With one
positional slot registered, the bare single-character token x — and the
empty token — do not bind to the positional slot as the claim states:
the loop eagerly unwraps the first two characters of every token, so the
run aborts on the unwrap of a missing character before the marker test is
ever reached. -/
theorem c2_code_eval :
    runRegs w2 Parser.new [.pos 0] = .ok p2 ∧
    parse_vec p2 w2 ["prog", "x"] = .error .oneCharToken ∧
    parse_vec p2 w2 ["prog", ""] = .error .emptyToken := by
  exact ⟨rfl, rfl, rfl⟩

/-- Claim C3, counterexample: the token list with dummy head, -f, abc,
-f, 5 supplies the key f twice, both occurrences resolving to the same
registered key-value handle, yet matching completes without a fatal error
and the second occurrence silently overwrites: the duplicate check tests
`found()`, which is still false after the first occurrence because the
conversion of abc failed, so the final held value is 5. -/
theorem c3_counterexample :
    runRegs w3 Parser.new [.kv 0] = .ok p3 ∧
    exIsOk (parse_vec p3 w3 ["", "-f", "abc", "-f", "5"]) = true ∧
    ((exGetD (parse_vec p3 w3 ["", "-f", "abc", "-f", "5"]) w3).kvArgs.getD 0 KVArg.dflt).val
      = some (.vint 5) := by
  exact ⟨rfl, rfl, rfl⟩

/-- Claim C4: matching the tokens -f, abc against an integer-typed
key-value argument named first aliased f completes without a fatal error
and leaves `found()` false, the value being reset to absent — the type
conversion failure on abc is silent and non-fatal. -/
theorem c4_conversion_failure_silent :
    runRegs w3 Parser.new [.kv 0] = .ok p3 ∧
    exIsOk (matchTokens p3 w3 ["-f", "abc"]) = true ∧
    ((exGetD (matchTokens p3 w3 ["-f", "abc"]) w3).kvArgs.getD 0 KVArg.dflt).found = false ∧
    ((exGetD (matchTokens p3 w3 ["-f", "abc"]) w3).kvArgs.getD 0 KVArg.dflt).val = none := by
  exact ⟨rfl, rfl, rfl, rfl⟩

/-- Claim C8: value extraction is one-shot for key-value and positional
arguments: when the argument currently holds a value v, `take_value()`
returns v and clears the stored value, so `found()` is false afterwards
and an immediately following `take_value()` returns absent. -/
theorem c8_take_one_shot :
    (∀ (a : KVArg) (v : Val), a.val = some v →
        a.take.1 = some v ∧ a.take.2.found = false ∧ a.take.2.take.1 = none) ∧
    (∀ (b : PosArg) (v : Val), b.val = some v →
        b.take.1 = some v ∧ b.take.2.found = false ∧ b.take.2.take.1 = none) := by
  constructor
  · intro a v h
    simp [KVArg.take, KVArg.found, h]
  · intro b v h
    simp [PosArg.take, PosArg.found, h]

/-- Witness for claim C8 at concrete arguments holding 42 and x. -/
theorem c8_witness :
    kvHolding42.val = some (.vint 42) ∧
    (kvHolding42.take.1 = some (.vint 42) ∧
      kvHolding42.take.2.found = false ∧
      kvHolding42.take.2.take.1 = none) ∧
    posHoldingX.val = some (.vstr "x") ∧
    (posHoldingX.take.1 = some (.vstr "x") ∧
      posHoldingX.take.2.found = false ∧
      posHoldingX.take.2.take.1 = none) := by
  refine ⟨rfl, ?_, rfl, ?_⟩
  · exact c8_take_one_shot.1 _ (.vint 42) rfl
  · exact c8_take_one_shot.2 _ (.vstr "x") rfl

/-- Claim C9: `parse_vec` unconditionally discards the first element of
the supplied vector before matching — the result does not depend on that
element in any way, so a caller-supplied token list only behaves as
described when a dummy leading element is prepended. -/
theorem c9_parse_vec_skips_first :
    ∀ (p : Parser) (w : World) (x : String) (argv : List String),
      parse_vec p w (x :: argv) = matchTokens p w argv := by
  intro p w x argv
  rfl

/-- Claim C3, amended: supplying the same key-value or flag key a second
time aborts fatally on the second occurrence whenever the handle is
`found()` at that point — for a key-value handle, when the value stored by
the earlier occurrence is still present (its conversion succeeded), and
for a flag handle always.  When the earlier occurrence left the value
absent (silent conversion failure), the second occurrence is re-parsed as
a silent overwrite instead (see the counterexample). -/
theorem c3_amended :
    ∀ (p : Parser) (w : World) (n : Nat) (tok : String) (c2 : Char) (cs : List Char)
      (rest : List String),
      tok.data = '-' :: c2 :: cs →
      (∀ i, mapLookup p.kv_keys (if c2 = '-' then (⟨cs⟩ : String) else ⟨c2 :: cs⟩) = some i →
          (w.kvArgs.getD i KVArg.dflt).found = true →
          matchLoop p w n (tok :: rest) = .error .duplicateKV) ∧
      (∀ i, mapLookup p.kv_keys (if c2 = '-' then (⟨cs⟩ : String) else ⟨c2 :: cs⟩) = none →
          mapLookup p.flag_keys (if c2 = '-' then (⟨cs⟩ : String) else ⟨c2 :: cs⟩) = some i →
          (w.flagArgs.getD i FlagArg.dflt).found = true →
          matchLoop p w n (tok :: rest) = .error .duplicateFlag) := by
  intro p w n tok c2 cs rest hdata
  constructor
  · intro i hkey hfound
    rw [matchLoop, hdata]
    simp only [hkey, hfound]
    simp
  · intro i hkv hflag hfound
    rw [matchLoop, hdata]
    simp only [hkv, hflag, hfound]
    simp

/-- Witness for claim C3 (amended) at the registered count handle already
holding a value when -c arrives again. -/
theorem c3_witness :
    ("-c".data = '-' :: 'c' :: ([] : List Char)) ∧
    mapLookup p1.kv_keys ⟨['c']⟩ = some 0 ∧
    (w1dup.kvArgs.getD 0 KVArg.dflt).found = true ∧
    matchLoop p1 w1dup 0 ["-c"] = .error .duplicateKV := by
  refine ⟨rfl, rfl, rfl, ?_⟩
  exact (c3_amended p1 w1dup 0 "-c" 'c' [] [] rfl).1 0 rfl rfl

/-- Claim C5, counterexample: with count aliased c already registered,
registering cool aliased c fails on the alias collision, but the registry
state at the failure is not the state before the call: the long name cool
has already been inserted into the keyed table. -/
theorem c5_counterexample :
    runRegs w5 Parser.new [.kv 0] = .ok p5 ∧
    add_kv_arg w5 p5 1 = .error (.kvAliasCollision, p5bad) ∧
    mapLookup p5bad.kv_keys "cool" = some 1 ∧
    mapLookup p5.kv_keys "cool" = none := ⟨rfl, rfl, rfl, rfl⟩

/-- Claim C5, amended: registration failure leaves the registry state
unchanged for a duplicate positional name, a long-name key collision and
a too-short long name (the checks precede every mutation); but a
key-value or flag registration that fails on the alias collision has
already inserted the long-name entry, and the state at the failure is
exactly the prior state with that one insertion. -/
theorem c5_amended :
    ∀ (w : World) (p : Parser) (i : Nat) (pe : Parser),
      (add_pos_arg w p i = .error (.dupPosName, pe) → pe = p) ∧
      (add_kv_arg w p i = .error (.kvNameCollision, pe) → pe = p) ∧
      (add_kv_arg w p i = .error (.kvNameTooShort, pe) → pe = p) ∧
      (add_kv_arg w p i = .error (.kvAliasCollision, pe) →
         pe = { p with kv_keys := mapInsert p.kv_keys (w.kvArgs.getD i KVArg.dflt).name i }) ∧
      (add_flag_arg w p i = .error (.flagNameCollision, pe) → pe = p) ∧
      (add_flag_arg w p i = .error (.flagNameTooShort, pe) → pe = p) ∧
      (add_flag_arg w p i = .error (.flagAliasCollision, pe) →
         pe = { p with flag_keys := mapInsert p.flag_keys (w.flagArgs.getD i FlagArg.dflt).name i }) := by
  intro w p i pe
  refine ⟨?_, ?_, ?_, ?_, ?_, ?_, ?_⟩ <;> intro h
  · simp only [add_pos_arg] at h
    split at h <;> simp_all
  · simp only [add_kv_arg] at h
    split at h <;> (try split at h) <;> (try split at h) <;> (try split at h) <;> simp_all
  · simp only [add_kv_arg] at h
    split at h <;> (try split at h) <;> (try split at h) <;> (try split at h) <;> simp_all
  · simp only [add_kv_arg] at h
    split at h <;> (try split at h) <;> (try split at h) <;> (try split at h) <;> simp_all
  · simp only [add_flag_arg] at h
    split at h <;> (try split at h) <;> (try split at h) <;> (try split at h) <;> simp_all
  · simp only [add_flag_arg] at h
    split at h <;> (try split at h) <;> (try split at h) <;> (try split at h) <;> simp_all
  · simp only [add_flag_arg] at h
    split at h <;> (try split at h) <;> (try split at h) <;> (try split at h) <;> simp_all

/-- Witness for claim C5 (amended) at the alias-collision failure of
registering cool aliased c over count aliased c. -/
theorem c5_witness :
    add_kv_arg w5 p5 1 = .error (.kvAliasCollision, p5bad) ∧
    p5bad = { p5 with kv_keys := mapInsert p5.kv_keys (w5.kvArgs.getD 1 KVArg.dflt).name 1 } := by
  refine ⟨rfl, ?_⟩
  exact (c5_amended w5 p5 1 p5bad).2.2.2.1 rfl

/-- Claim C7: when a marker-prefixed token resolves to a key-value handle
that is not yet `found()`, the very next token of the sequence is consumed
verbatim as its value and handed to `parse` — the equation places no
condition whatsoever on that value token, so a value beginning with one or
two markers, or equal to a registered key, is never re-interpreted and the
loop continues after it — and when no next token exists the run fails
fatally on the unwrap of the missing value. -/
theorem c7_kv_value_verbatim :
    ∀ (p : Parser) (w : World) (n : Nat) (tok : String) (c2 : Char) (cs : List Char)
      (i : Nat) (rest : List String),
      tok.data = '-' :: c2 :: cs →
      mapLookup p.kv_keys (if c2 = '-' then (⟨cs⟩ : String) else ⟨c2 :: cs⟩) = some i →
      (w.kvArgs.getD i KVArg.dflt).found = false →
      matchLoop p w n (tok :: rest) =
        (match rest with
         | [] => .error .missingValue
         | v :: rest' =>
            matchLoop p { w with kvArgs := w.kvArgs.set i ((w.kvArgs.getD i KVArg.dflt).parseTok v) }
              n rest') := by
  intro p w n tok c2 cs i rest hdata hkey hfound
  rw [matchLoop, hdata]
  simp only [hkey, hfound]
  simp

/-- Witness for claim C7 at the count handle: the value token is the
marker-prefixed string --count, itself the long key of the same argument,
and is still consumed verbatim; with no next token the run fails
fatally. -/
theorem c7_witness :
    ("-c".data = '-' :: 'c' :: ([] : List Char)) ∧
    mapLookup p1.kv_keys ⟨['c']⟩ = some 0 ∧
    (w1.kvArgs.getD 0 KVArg.dflt).found = false ∧
    matchLoop p1 w1 0 ["-c", "--count"] =
      matchLoop p1
        { w1 with kvArgs := w1.kvArgs.set 0 ((w1.kvArgs.getD 0 KVArg.dflt).parseTok "--count") }
        0 [] ∧
    matchLoop p1 w1 0 ["-c"] = .error .missingValue := by
  refine ⟨rfl, rfl, rfl, ?_, ?_⟩
  · exact c7_kv_value_verbatim p1 w1 0 "-c" 'c' [] 0 ["--count"] rfl rfl rfl
  · exact c7_kv_value_verbatim p1 w1 0 "-c" 'c' [] 0 [] rfl rfl rfl

/-- A lookup misses exactly when the key is not among the table's keys. -/
theorem mapLookup_eq_none_iff (l : List (String × Nat)) (k : String) :
    mapLookup l k = none ↔ k ∉ keysOf l := by
  induction l with
  | nil => simp [mapLookup, keysOf]
  | cons e rest ih =>
    obtain ⟨k', v'⟩ := e
    by_cases h : k' = k
    · subst h
      simp [mapLookup, keysOf]
    · simp [mapLookup, keysOf, h, ih, Ne.symm h]

/-- A successful lookup returns an entry of the table. -/
theorem mapLookup_mem {l : List (String × Nat)} {k : String} {v : Nat}
    (h : mapLookup l k = some v) : (k, v) ∈ l := by
  induction l with
  | nil => simp [mapLookup] at h
  | cons e rest ih =>
    obtain ⟨k', v'⟩ := e
    by_cases hk : k' = k
    · subst hk
      simp [mapLookup] at h
      subst h
      exact List.mem_cons_self _ _
    · simp [mapLookup, hk] at h
      exact List.mem_cons_of_mem _ (ih h)

/-- Containment is false exactly when the key is not among the table's
keys. -/
theorem mapContains_false_iff (l : List (String × Nat)) (k : String) :
    mapContains l k = false ↔ k ∉ keysOf l := by
  rw [← mapLookup_eq_none_iff]
  unfold mapContains
  cases mapLookup l k <;> simp

/-- Inserting a fresh key appends its entry. -/
theorem mapInsert_eq_append {l : List (String × Nat)} {k : String} (v : Nat)
    (h : k ∉ keysOf l) : mapInsert l k v = l ++ [(k, v)] := by
  induction l with
  | nil => simp [mapInsert]
  | cons e rest ih =>
    obtain ⟨k', v'⟩ := e
    simp [keysOf] at h
    simp [mapInsert, Ne.symm h.1, ih (by simp [keysOf, h.2])]

/-- Entry well-formedness only gains table entries under extension. -/
theorem kvEntryOk_mono {w : World} {tbl : List (String × Nat)} {e : String × Nat}
    (l : List (String × Nat)) (h : kvEntryOk w tbl e) :
    kvEntryOk w (tbl ++ l) e := by
  obtain ⟨h1, h2, h3, h4⟩ := h
  exact ⟨h1, List.mem_append_left _ h2, fun c hc => List.mem_append_left _ (h3 c hc), h4⟩

/-- Entry well-formedness only gains table entries under extension. -/
theorem flagEntryOk_mono {w : World} {tbl : List (String × Nat)} {e : String × Nat}
    (l : List (String × Nat)) (h : flagEntryOk w tbl e) :
    flagEntryOk w (tbl ++ l) e := by
  obtain ⟨h1, h2, h3, h4⟩ := h
  exact ⟨h1, List.mem_append_left _ h2, fun c hc => List.mem_append_left _ (h3 c hc), h4⟩

/-- Appending the long-name entry of a fresh aliasless key-value handle
preserves the invariant. -/
theorem Inv_kv_extend_one {w : World} {p : Parser} {i : Nat} {a : KVArg}
    (ha : w.kvArgs.getD i KVArg.dflt = a) (hI : Inv w p)
    (hn1 : a.name ∉ keysOf p.kv_keys)
    (hn2 : a.name ∉ keysOf p.flag_keys)
    (hsz : 1 < a.name.utf8ByteSize)
    (hsk : a.short_key = none) :
    Inv w { p with kv_keys := p.kv_keys ++ [(a.name, i)] } := by
  obtain ⟨hNodup, hKV, hFl⟩ := hI
  rw [List.nodup_append] at hNodup
  obtain ⟨hK, hF, hKF⟩ := hNodup
  refine ⟨?_, ?_, ?_⟩
  · show (keysOf (p.kv_keys ++ [(a.name, i)]) ++ keysOf p.flag_keys).Nodup
    rw [keysOf, List.map_append, List.nodup_append]
    refine ⟨?_, hF, ?_⟩
    · rw [List.nodup_append]
      refine ⟨hK, by simp, ?_⟩
      intro x hx hx2
      simp at hx2
      subst hx2
      exact hn1 hx
    · rw [List.disjoint_append_left]
      refine ⟨hKF, ?_⟩
      intro x hx hx2
      simp at hx
      subst hx
      exact hn2 hx2
  · intro e he
    rcases List.mem_append.mp he with he' | he'
    · exact kvEntryOk_mono _ (hKV e he')
    · simp only [List.mem_singleton] at he'
      subst he'
      refine ⟨?_, ?_, ?_, ?_⟩
      · simpa only [ha] using hsz
      · simp only [ha]
        exact List.mem_append_right _ (by simp)
      · intro c hc
        simp only [ha, hsk] at hc
        exact absurd hc (by simp)
      · left
        simp only [ha]
  · intro e he
    exact hFl e he

/-- Appending the long-name and alias entries of a fresh aliased
key-value handle preserves the invariant. -/
theorem Inv_kv_extend_two {w : World} {p : Parser} {i : Nat} {a : KVArg} {c : Char}
    (ha : w.kvArgs.getD i KVArg.dflt = a) (hI : Inv w p)
    (hn1 : a.name ∉ keysOf p.kv_keys)
    (hn2 : a.name ∉ keysOf p.flag_keys)
    (hsz : 1 < a.name.utf8ByteSize)
    (hsk : a.short_key = some c)
    (hc1 : c.toString ∉ keysOf p.kv_keys)
    (hcn : c.toString ≠ a.name)
    (hc2 : c.toString ∉ keysOf p.flag_keys) :
    Inv w { p with kv_keys := p.kv_keys ++ [(a.name, i), (c.toString, i)] } := by
  obtain ⟨hNodup, hKV, hFl⟩ := hI
  rw [List.nodup_append] at hNodup
  obtain ⟨hK, hF, hKF⟩ := hNodup
  refine ⟨?_, ?_, ?_⟩
  · show (keysOf (p.kv_keys ++ [(a.name, i), (c.toString, i)])
      ++ keysOf p.flag_keys).Nodup
    rw [keysOf, List.map_append, List.nodup_append]
    refine ⟨?_, hF, ?_⟩
    · rw [List.nodup_append]
      refine ⟨hK, by simp [Ne.symm hcn], ?_⟩
      intro x hx hx2
      simp at hx2
      rcases hx2 with hx2 | hx2 <;> subst hx2
      · exact hn1 hx
      · exact hc1 hx
    · rw [List.disjoint_append_left]
      refine ⟨hKF, ?_⟩
      intro x hx hx2
      simp at hx
      rcases hx with hx | hx <;> subst hx
      · exact hn2 hx2
      · exact hc2 hx2
  · intro e he
    rcases List.mem_append.mp he with he' | he'
    · exact kvEntryOk_mono _ (hKV e he')
    · simp only [List.mem_cons, List.mem_singleton, List.not_mem_nil, or_false] at he'
      rcases he' with he' | he' <;> subst he'
      · refine ⟨?_, ?_, ?_, ?_⟩
        · simpa only [ha] using hsz
        · simp only [ha]
          exact List.mem_append_right _ (by simp)
        · intro c' hc'
          simp only [ha, hsk, Option.some.injEq] at hc'
          subst hc'
          exact List.mem_append_right _ (by simp)
        · left
          simp only [ha]
      · refine ⟨?_, ?_, ?_, ?_⟩
        · simpa only [ha] using hsz
        · simp only [ha]
          exact List.mem_append_right _ (by simp)
        · intro c' hc'
          simp only [ha, hsk, Option.some.injEq] at hc'
          subst hc'
          exact List.mem_append_right _ (by simp)
        · right
          exact ⟨c, by simp only [ha, hsk], rfl⟩
  · intro e he
    exact hFl e he

/-- Appending the long-name entry of a fresh aliasless flag handle
preserves the invariant. -/
theorem Inv_flag_extend_one {w : World} {p : Parser} {i : Nat} {a : FlagArg}
    (ha : w.flagArgs.getD i FlagArg.dflt = a) (hI : Inv w p)
    (hn1 : a.name ∉ keysOf p.flag_keys)
    (hn2 : a.name ∉ keysOf p.kv_keys)
    (hsz : 1 < a.name.utf8ByteSize)
    (hsk : a.short_key = none) :
    Inv w { p with flag_keys := p.flag_keys ++ [(a.name, i)] } := by
  obtain ⟨hNodup, hKV, hFl⟩ := hI
  rw [List.nodup_append] at hNodup
  obtain ⟨hK, hF, hKF⟩ := hNodup
  refine ⟨?_, ?_, ?_⟩
  · show (keysOf p.kv_keys ++ keysOf (p.flag_keys ++ [(a.name, i)])).Nodup
    simp only [keysOf, List.map_append]
    rw [List.nodup_append]
    refine ⟨hK, ?_, ?_⟩
    · rw [List.nodup_append]
      refine ⟨hF, by simp, ?_⟩
      intro x hx hx2
      simp at hx2
      subst hx2
      exact hn1 hx
    · rw [List.disjoint_append_right]
      refine ⟨hKF, ?_⟩
      intro x hx hx2
      simp at hx2
      subst hx2
      exact hn2 hx
  · intro e he
    exact hKV e he
  · intro e he
    rcases List.mem_append.mp he with he' | he'
    · exact flagEntryOk_mono _ (hFl e he')
    · simp only [List.mem_singleton] at he'
      subst he'
      refine ⟨?_, ?_, ?_, ?_⟩
      · simpa only [ha] using hsz
      · simp only [ha]
        exact List.mem_append_right _ (by simp)
      · intro c hc
        simp only [ha, hsk] at hc
        exact absurd hc (by simp)
      · left
        simp only [ha]

/-- Appending the long-name and alias entries of a fresh aliased flag
handle preserves the invariant. -/
theorem Inv_flag_extend_two {w : World} {p : Parser} {i : Nat} {a : FlagArg} {c : Char}
    (ha : w.flagArgs.getD i FlagArg.dflt = a) (hI : Inv w p)
    (hn1 : a.name ∉ keysOf p.flag_keys)
    (hn2 : a.name ∉ keysOf p.kv_keys)
    (hsz : 1 < a.name.utf8ByteSize)
    (hsk : a.short_key = some c)
    (hc1 : c.toString ∉ keysOf p.flag_keys)
    (hcn : c.toString ≠ a.name)
    (hc2 : c.toString ∉ keysOf p.kv_keys) :
    Inv w { p with flag_keys := p.flag_keys ++ [(a.name, i), (c.toString, i)] } := by
  obtain ⟨hNodup, hKV, hFl⟩ := hI
  rw [List.nodup_append] at hNodup
  obtain ⟨hK, hF, hKF⟩ := hNodup
  refine ⟨?_, ?_, ?_⟩
  · show (keysOf p.kv_keys ++ keysOf (p.flag_keys ++ [(a.name, i), (c.toString, i)])).Nodup
    simp only [keysOf, List.map_append]
    rw [List.nodup_append]
    refine ⟨hK, ?_, ?_⟩
    · rw [List.nodup_append]
      refine ⟨hF, by simp [Ne.symm hcn], ?_⟩
      intro x hx hx2
      simp at hx2
      rcases hx2 with hx2 | hx2 <;> subst hx2
      · exact hn1 hx
      · exact hc1 hx
    · rw [List.disjoint_append_right]
      refine ⟨hKF, ?_⟩
      intro x hx hx2
      simp at hx2
      rcases hx2 with hx2 | hx2 <;> subst hx2
      · exact hn2 hx
      · exact hc2 hx
  · intro e he
    exact hKV e he
  · intro e he
    rcases List.mem_append.mp he with he' | he'
    · exact flagEntryOk_mono _ (hFl e he')
    · simp only [List.mem_cons, List.mem_singleton, List.not_mem_nil, or_false] at he'
      rcases he' with he' | he' <;> subst he'
      · refine ⟨?_, ?_, ?_, ?_⟩
        · simpa only [ha] using hsz
        · simp only [ha]
          exact List.mem_append_right _ (by simp)
        · intro c' hc'
          simp only [ha, hsk, Option.some.injEq] at hc'
          subst hc'
          exact List.mem_append_right _ (by simp)
        · left
          simp only [ha]
      · refine ⟨?_, ?_, ?_, ?_⟩
        · simpa only [ha] using hsz
        · simp only [ha]
          exact List.mem_append_right _ (by simp)
        · intro c' hc'
          simp only [ha, hsk, Option.some.injEq] at hc'
          subst hc'
          exact List.mem_append_right _ (by simp)
        · right
          exact ⟨c, by simp only [ha, hsk], rfl⟩

/-- A successful `add_pos_arg` call preserves the keyed-name invariants
(it does not touch the keyed tables). -/
theorem add_pos_arg_Inv {w : World} {p p' : Parser} {i : Nat}
    (h : add_pos_arg w p i = .ok p') (hI : Inv w p) : Inv w p' := by
  simp only [add_pos_arg] at h
  split at h
  · simp at h
  · simp only [Except.ok.injEq] at h
    subst h
    exact hI

/-- A successful `add_kv_arg` call preserves the keyed-name
invariants. -/
theorem add_kv_arg_Inv {w : World} {p p' : Parser} {i : Nat}
    (h : add_kv_arg w p i = .ok p') (hI : Inv w p) : Inv w p' := by
  simp only [add_kv_arg] at h
  generalize hg : w.kvArgs.getD i KVArg.dflt = a at h
  split at h
  · simp at h
  case isFalse hc1 =>
  split at h
  · simp at h
  case isFalse hsz =>
  simp only [Bool.or_eq_true, not_or, Bool.not_eq_true, mapContains_false_iff] at hc1
  obtain ⟨hn1, hn2⟩ := hc1
  replace hsz := Nat.not_le.mp hsz
  split at h
  case h_1 hsk =>
    simp only [Except.ok.injEq] at h
    subst h
    rw [mapInsert_eq_append _ hn1]
    exact Inv_kv_extend_one hg hI hn1 hn2 hsz hsk
  case h_2 c hsk =>
    split at h
    · simp at h
    case isFalse hcs =>
    simp only [Bool.or_eq_true, not_or, Bool.not_eq_true, mapContains_false_iff] at hcs
    obtain ⟨hcs1, hcs2⟩ := hcs
    rw [mapInsert_eq_append _ hn1] at hcs1
    simp only [keysOf, List.map_append, List.mem_append] at hcs1
    push_neg at hcs1
    obtain ⟨hck, hcn⟩ := hcs1
    simp only [List.map_cons, List.map_nil, List.mem_singleton] at hcn
    simp only [Except.ok.injEq] at h
    subst h
    rw [mapInsert_eq_append _ hn1, mapInsert_eq_append, List.append_assoc]
    · exact Inv_kv_extend_two hg hI hn1 hn2 hsz hsk hck hcn hcs2
    · simp only [keysOf, List.map_append, List.mem_append]
      push_neg
      exact ⟨hck, by simpa using hcn⟩

/-- A successful `add_flag_arg` call preserves the keyed-name
invariants. -/
theorem add_flag_arg_Inv {w : World} {p p' : Parser} {i : Nat}
    (h : add_flag_arg w p i = .ok p') (hI : Inv w p) : Inv w p' := by
  simp only [add_flag_arg] at h
  generalize hg : w.flagArgs.getD i FlagArg.dflt = a at h
  split at h
  · simp at h
  case isFalse hc1 =>
  split at h
  · simp at h
  case isFalse hsz =>
  simp only [Bool.or_eq_true, not_or, Bool.not_eq_true, mapContains_false_iff] at hc1
  obtain ⟨hn1, hn2⟩ := hc1
  replace hsz := Nat.not_le.mp hsz
  split at h
  case h_1 hsk =>
    simp only [Except.ok.injEq] at h
    subst h
    rw [mapInsert_eq_append _ hn1]
    exact Inv_flag_extend_one hg hI hn1 hn2 hsz hsk
  case h_2 c hsk =>
    split at h
    · simp at h
    case isFalse hcs =>
    simp only [Bool.or_eq_true, not_or, Bool.not_eq_true, mapContains_false_iff] at hcs
    obtain ⟨hcs1, hcs2⟩ := hcs
    rw [mapInsert_eq_append _ hn1] at hcs1
    simp only [keysOf, List.map_append, List.mem_append] at hcs1
    push_neg at hcs1
    obtain ⟨hck, hcn⟩ := hcs1
    simp only [List.map_cons, List.map_nil, List.mem_singleton] at hcn
    simp only [Except.ok.injEq] at h
    subst h
    rw [mapInsert_eq_append _ hn1, mapInsert_eq_append, List.append_assoc]
    · exact Inv_flag_extend_two hg hI hn1 hn2 hsz hsk hck hcn hcs2
    · simp only [keysOf, List.map_append, List.mem_append]
      push_neg
      exact ⟨hck, by simpa using hcn⟩

/-- Every successful registration call preserves the keyed-name
invariants. -/
theorem applyReg_Inv {w : World} {p p' : Parser} {op : RegOp}
    (h : applyReg w p op = .ok p') (hI : Inv w p) : Inv w p' := by
  cases op with
  | pos i => exact add_pos_arg_Inv h hI
  | kv i => exact add_kv_arg_Inv h hI
  | flag i => exact add_flag_arg_Inv h hI

/-- Every successful sequence of registration calls preserves the
keyed-name invariants. -/
theorem runRegs_Inv : ∀ (ops : List RegOp) (w : World) (p p' : Parser),
    Inv w p → runRegs w p ops = .ok p' → Inv w p' := by
  intro ops
  induction ops with
  | nil =>
    intro w p p' hI h
    simp only [runRegs, Except.ok.injEq] at h
    subst h
    exact hI
  | cons op rest ih =>
    intro w p p' hI h
    simp only [runRegs] at h
    cases happ : applyReg w p op with
    | ok q =>
      rw [happ] at h
      exact ih w q p' (applyReg_Inv happ hI) h
    | error e =>
      rw [happ] at h
      simp at h

/-- The fresh registry satisfies the keyed-name invariants. -/
theorem Inv_new (w : World) : Inv w Parser.new := by
  refine ⟨by simp [Parser.new, keysOf], ?_, ?_⟩ <;> intro e he <;> simp [Parser.new] at he

/-- Claim C6: after every successful sequence of registrations from the
fresh registry, the keyed-name invariants hold: the keys of the shared
namespace — all long names and alias strings of key-value and flag
arguments — are pairwise distinct across both kinds, each mapping to
exactly one handle; every registered long name has byte length greater
than one; and every registered alias key is the string of a single
character, hence exactly one character long. -/
theorem c6_registration_invariants :
    ∀ (w : World) (ops : List RegOp) (p : Parser),
      runRegs w Parser.new ops = .ok p →
      Inv w p ∧
      (∀ e ∈ p.kv_keys, ∀ c, (w.kvArgs.getD e.2 KVArg.dflt).short_key = some c →
          (Char.toString c).length = 1) ∧
      (∀ e ∈ p.flag_keys, ∀ c, (w.flagArgs.getD e.2 FlagArg.dflt).short_key = some c →
          (Char.toString c).length = 1) := by
  intro w ops p h
  refine ⟨runRegs_Inv ops w Parser.new p (Inv_new w) h, ?_, ?_⟩
  · intro e _ c _
    rfl
  · intro e _ c _
    rfl

/-- Witness for claim C6 at the registration sequence of path, count
aliased c and verbose aliased v. -/
theorem c6_witness :
    runRegs w1 Parser.new [.pos 0, .kv 0, .flag 0] = .ok p1 ∧
    (Inv w1 p1 ∧
      (∀ e ∈ p1.kv_keys, ∀ c, (w1.kvArgs.getD e.2 KVArg.dflt).short_key = some c →
          (Char.toString c).length = 1) ∧
      (∀ e ∈ p1.flag_keys, ∀ c, (w1.flagArgs.getD e.2 FlagArg.dflt).short_key = some c →
          (Char.toString c).length = 1)) :=
  ⟨rfl, c6_registration_invariants w1 [.pos 0, .kv 0, .flag 0] p1 rfl⟩

/-- Claim C10: a bare double-marker token strips to the empty key, and no
reachable registry can hold the empty string as a key (every key is a
long name of byte length greater than one or a one-character alias
string), so matching a double-marker token always fails fatally with the
unknown-key condition, whatever arguments were registered and wherever
the token occurs. -/
theorem c10_double_marker_unknown_key :
    ∀ (w : World) (ops : List RegOp) (p : Parser),
      runRegs w Parser.new ops = .ok p →
      ∀ (n : Nat) (rest : List String),
        matchLoop p w n ("--" :: rest) = .error (.noSuchKey "") := by
  intro w ops p h n rest
  have hI := runRegs_Inv ops w Parser.new p (Inv_new w) h
  have hkv : mapLookup p.kv_keys "" = none := by
    cases hl : mapLookup p.kv_keys "" with
    | none => rfl
    | some i =>
      exfalso
      have hok := hI.2.1 _ (mapLookup_mem hl)
      obtain ⟨hsz, -, -, hdisj⟩ := hok
      rcases hdisj with hname | ⟨c, -, hcs⟩
      · rw [← hname] at hsz
        rw [show (("", i).1 : String) = "" from rfl] at hsz
        exact absurd hsz (by decide)
      · have hlen := congrArg String.length hcs
        rw [show ((("", i).1 : String)).length = 0 from rfl,
          show (Char.toString c).length = 1 from rfl] at hlen
        exact absurd hlen (by decide)
  have hflag : mapLookup p.flag_keys "" = none := by
    cases hl : mapLookup p.flag_keys "" with
    | none => rfl
    | some i =>
      exfalso
      have hok := hI.2.2 _ (mapLookup_mem hl)
      obtain ⟨hsz, -, -, hdisj⟩ := hok
      rcases hdisj with hname | ⟨c, -, hcs⟩
      · rw [← hname] at hsz
        rw [show (("", i).1 : String) = "" from rfl] at hsz
        exact absurd hsz (by decide)
      · have hlen := congrArg String.length hcs
        rw [show ((("", i).1 : String)).length = 0 from rfl,
          show (Char.toString c).length = 1 from rfl] at hlen
        exact absurd hlen (by decide)
  rw [matchLoop]
  rw [show ("--".data) = ['-', '-'] from rfl]
  simp only [reduceIte]
  rw [show (⟨[]⟩ : String) = "" from rfl]
  rw [hkv, hflag]

/-- Witness for claim C10 with path, count aliased c and verbose aliased
v registered. -/
theorem c10_witness :
    runRegs w1 Parser.new [.pos 0, .kv 0, .flag 0] = .ok p1 ∧
    matchLoop p1 w1 0 ["--"] = .error (.noSuchKey "") :=
  ⟨rfl, c10_double_marker_unknown_key w1 [.pos 0, .kv 0, .flag 0] p1 rfl 0 []⟩

end RustArgs
